import Mathlib

/-!
Shallow embedding of `src/utils/prefix_tree.py` (repository shakram02/Parso).

The grammar model only ever reads an element's `name` string, so an element is
embedded as a `String` and an alternative as a `List String`.  Python dicts
(`PrefixTree.children`, the factoring table, the `prefixes` dict) are embedded
as insertion-ordered association lists: assignment updates the first matching
entry in place or appends a fresh entry at the end, deletion removes the first
matching entry, exactly as a CPython 3.7+ dict behaves.  Python exceptions
(`KeyError` from `d[k]` / `del d[k]`, `IndexError` from `alt[0]`) are embedded
with `Except Err`.
-/

namespace Parso

/-- A grammar element, identified by its name string only. -/
abbrev Element := String

/-- An alternative: an ordered sequence of grammar elements. -/
abbrev Alt := List Element

/-- Runtime failures of the embedded code.  `keyError k` models a Python
`KeyError` raised by `d[k]` or `del d[k]`; `indexError` models the
`IndexError` raised by `alt[0]` on an empty alternative; `invalidAlternative`
models the explicit `InvalidAlternative` error the specification asks for
(never produced by the code under `src/`); `fuel` is an artefact of the
bounded loop embedding and is never reached by the modelled loops. -/
inductive Err where
  | keyError (k : String)
  | indexError
  | invalidAlternative
  | fuel
  deriving DecidableEq

mutual
/-- Embeds `PrefixNode`: `label` embeds the Python field `prefix` (a Lean keyword),
`prefix_length`, `children` and `alts` embed the fields of the same names.
The Python `parent` back-reference is not stored: the recursion that uses it
(`__create_constellations`) instead returns the promoted alternatives to the
caller, which owns the parent node. -/
inductive Node where
  | mk : String → Nat → NodeList → List Alt → Node

/-- The ordered list of children of a `PrefixNode`. -/
inductive NodeList where
  | nil : NodeList
  | cons : Node → NodeList → NodeList
end

/-- The `prefix` field of a `PrefixNode` (named `label` because `prefix` is a
Lean keyword). -/
def Node.label : Node → String
  | .mk l _ _ _ => l

/-- The `prefix_length` field of a `PrefixNode`. -/
def Node.prefix_length : Node → Nat
  | .mk _ d _ _ => d

/-- The `children` field of a `PrefixNode`. -/
def Node.children : Node → NodeList
  | .mk _ _ cs _ => cs

/-- The `alts` field of a `PrefixNode`. -/
def Node.alts : Node → List Alt
  | .mk _ _ _ as => as

/-- Append one node at the end of a children list
(Python `start_node.children.append(node)`). -/
def NodeList.snoc : NodeList → Node → NodeList
  | .nil, n => .cons n .nil
  | .cons c cs, n => .cons c (cs.snoc n)

/-- Insertion-order preserving lookup in an association list: the first entry
with the given key (Python `d[k]` read, `k in d.keys()`). -/
def lookupA {α : Type} : List (String × α) → String → Option α
  | [], _ => none
  | (k, v) :: t, key => if k = key then some v else lookupA t key

/-- Association-list assignment with Python dict semantics: update the first
entry with the given key in place, or append a fresh entry at the end. -/
def setA {α : Type} : List (String × α) → String → α → List (String × α)
  | [], key, v => [(key, v)]
  | (k, w) :: t, key, v => if k = key then (key, v) :: t else (k, w) :: setA t key v

/-- Association-list deletion (Python `del d[k]` once the key is known to be
present): remove the first entry with the given key. -/
def eraseA {α : Type} : List (String × α) → String → List (String × α)
  | [], _ => []
  | (k, w) :: t, key => if k = key then t else (k, w) :: eraseA t key

/-- The keys of an association list in order (Python `d.keys()`). -/
def keysA {α : Type} (t : List (String × α)) : List String :=
  t.map Prod.fst

/-- The factoring table `PrefixTree.__factored_table` (and the `prefixes`
dict derived from it): group key to ordered list of alternatives. -/
abbrev Table := List (String × List Alt)

/-- Embeds `PrefixTree.__to_string`: concatenation of the element names of an
alternative, in order. -/
def to_string (a : Alt) : String :=
  a.foldl (fun s el => s ++ el) ""

/-- Embeds `PrefixNode.get_child_named`, fused with the indexed access
`start_node.children[matching_child]` that always follows it in
`create_chain`: locate the first child whose `prefix` equals the given name
and return the children before it, the child itself, and the children after
it, so the caller can put an updated child back in the same position. -/
def find_child : NodeList → String → Option (NodeList × Node × NodeList)
  | .nil, _ => none
  | .cons c cs, name =>
    if c.label = name then some (.nil, c, cs)
    else
      match find_child cs name with
      | none => none
      | some (before, m, after) => some (.cons c before, m, after)

/-- Rebuild a children list from the pieces returned by `find_child` with the
matched child replaced. -/
def NodeList.glue : NodeList → Node → NodeList → NodeList
  | .nil, m, after => .cons m after
  | .cons c cs, m, after => .cons c (cs.glue m after)

/-- The table update at the end of `create_chain`: append the alternative to
the entry for the key, creating the entry when absent (this is the one table
write in the file that does guard against an absent key). -/
def table_append (t : Table) (key : String) (v : Alt) : Table :=
  match lookupA t key with
  | none => t ++ [(key, [v])]
  | some l => setA t key (l ++ [v])

/-- Embeds `PrefixTree.create_chain`.  Descends (creating nodes on the way) while
more than one element remains, as the Python `while len(elements) > 1` loop
with its `del elements[0]`; at the final node it appends `full_alt` to the
node's `alts` and files `full_alt` in the factoring table under
`__to_string(full_alt)[0:-1]` (the signature minus its last character), or
under the full signature when `full_alt` has exactly one element.  Returns
the updated subtree, the updated table, and the leftover `elements` list —
the state the Python loop leaves the caller's mutable alternative list in. -/
def create_chain (node : Node) (elements : List Element) (full_alt : Alt)
    (table : Table) : Node × Table × List Element :=
  match elements with
  | e1 :: e2 :: rest =>
    match node with
    | .mk lbl d cs as =>
      match find_child cs e1 with
      | some (before, m, after) =>
        let r := create_chain m (e2 :: rest) full_alt table
        (Node.mk lbl d (before.glue r.1 after) as, r.2.1, r.2.2)
      | none =>
        let child := Node.mk e1 (d + 1) .nil []
        let r := create_chain child (e2 :: rest) full_alt table
        (Node.mk lbl d (cs.snoc r.1) as, r.2.1, r.2.2)
  | _ =>
    match node with
    | .mk lbl d cs as =>
      let s := to_string full_alt
      let key := if full_alt.length = 1 then s else s.dropRight 1
      (Node.mk lbl d cs (as ++ [full_alt]), table_append table key full_alt, elements)

/-- The loop body of `PrefixTree.create_tree` folded over the remaining
alternatives.  For each alternative: read `alt[0]` (an `IndexError` when the
alternative is empty), look up or create the root keyed by that element's
name, and run `create_chain` on the rest of the elements.  `residues`
collects, per input alternative in order, the leftover state `create_chain`
leaves each (mutable, in Python) alternative list in. -/
def create_tree_aux (roots : List (String × Node)) (table : Table)
    (residues : List (List Element)) :
    List Alt → Except Err (List (String × Node) × Table × List (List Element))
  | [] => .ok (roots, table, residues)
  | alt :: more =>
    match alt with
    | [] => .error .indexError
    | e :: restEls =>
      let node :=
        match lookupA roots e with
        | some n => n
        | none => Node.mk e 0 .nil []
      let r := create_chain node restEls alt table
      create_tree_aux (setA roots e r.1) r.2.1 (residues ++ [r.2.2]) more

/-- Embeds `PrefixTree.create_tree` run from the empty tree state, as
`PrefixTree.__init__` does. -/
def create_tree (alts : List Alt) :
    Except Err (List (String × Node) × Table × List (List Element)) :=
  create_tree_aux [] [] [] alts

mutual
/-- Embeds `PrefixTree.__create_constellations` at a non-root node: process the
children first (post-order), then, if the node now holds exactly one
alternative, promote it — the returned alternative list is what the Python
code appends to `head.parent.alts`.  The table update reads
`self.__factored_table[alt_parent_prefix]` with a plain indexing (a
`KeyError` when absent: the code does not create the entry) and then
`del self.__factored_table[alt_prefix]` (likewise a `KeyError` when absent).
Returns the updated table, the updated node and the promoted alternatives. -/
def const_node (table : Table) (n : Node) : Except Err (Table × Node × List Alt) :=
  match n with
  | .mk lbl d cs as =>
    match const_list table cs with
    | .error e => .error e
    | .ok (t1, cs1, promoted) =>
      match as ++ promoted with
      | [alt] =>
        let altKey := (to_string alt).dropRight 1
        let parentKey := altKey.dropRight 1
        match lookupA t1 parentKey with
        | none => .error (.keyError parentKey)
        | some l =>
          let t2 := setA t1 parentKey (l ++ [alt])
          match lookupA t2 altKey with
          | none => .error (.keyError altKey)
          | some _ => .ok (eraseA t2 altKey, Node.mk lbl d cs1 [], [alt])
      | other => .ok (t1, Node.mk lbl d cs1 other, [])

/-- The `for child in head.children` loop of `__create_constellations`:
process the children in order, threading the table, and collect everything
the children promote into their (common) parent. -/
def const_list (table : Table) (cs : NodeList) : Except Err (Table × NodeList × List Alt) :=
  match cs with
  | .nil => .ok (table, .nil, [])
  | .cons c rest =>
    match const_node table c with
    | .error e => .error e
    | .ok (t1, c1, p1) =>
      match const_list t1 rest with
      | .error e => .error e
      | .ok (t2, rest1, p2) => .ok (t2, .cons c1 rest1, p1 ++ p2)
end

/-- Embeds `PrefixTree.__create_constellations` at a root node: the children are
processed (each promoted alternative lands in the root's `alts`), but the
root itself is never promoted — `head.parent is None` makes the Python
function return.  Only the table is carried forward by `get_factored_out`. -/
def const_root (table : Table) (n : Node) : Except Err Table :=
  match const_list table n.children with
  | .error e => .error e
  | .ok (t1, _, _) => .ok t1

/-- The first loop of `get_factored_out`: run `__create_constellations` on
every root, in the insertion order of `self.children`. -/
def const_roots (table : Table) : List (String × Node) → Except Err Table
  | [] => .ok table
  | (_, n) :: rest =>
    match const_root table n with
    | .error e => .error e
    | .ok t1 => const_roots t1 rest

/-- The stable insertion step of `sorted(keys, key=lambda x: len(x))`. -/
def sort_ins (x : String) : List String → List String
  | [] => [x]
  | y :: ys => if x.length ≤ y.length then x :: y :: ys else y :: sort_ins x ys

/-- Embeds `sorted(prefixes.keys(), key=lambda x: len(x))`: a stable sort by
increasing string length (CPython's `sorted` is stable). -/
def sort_by_len : List String → List String
  | [] => []
  | x :: xs => sort_ins x (sort_by_len xs)

/-- The inner `for alt in filtered` loop of `__add_leftovers`, with Python's
lazy `filter` semantics made explicit: the filter iterates the live
`leftovers` list (`src`) by index; on a match the alternative is appended to
`prefixes[key]` (a `KeyError` when that entry is absent) and removed from the
live list (`list.remove`: first occurrence), after which the iterator's next
position in the shrunk list is the same index; on a non-match the index
advances.  `fuel` bounds the iteration count (each step either consumes an
index or shortens `src`, so `src.length + 1` steps always suffice and the
`fuel` error is unreachable). -/
def lr_loop (key : String) (prefixes : Table) (src : List Alt) (i : Nat) :
    Nat → Except Err (Table × List Alt)
  | 0 => .error .fuel
  | fuelLeft + 1 =>
    match src[i]? with
    | none => .ok (prefixes, src)
    | some x =>
      if to_string x = key then
        match lookupA prefixes key with
        | none => .error (.keyError key)
        | some tgt =>
          lr_loop key (setA prefixes key (tgt ++ [x])) (src.erase x) i fuelLeft
      else lr_loop key prefixes src (i + 1) fuelLeft

/-- One iteration of the `for key in keys` loop of `__add_leftovers`.
`keys` is the sorted snapshot taken before the loop: membership of
`leftover_key` is tested against this snapshot even after entries have been
deleted from `prefixes`, and `prefixes[leftover_key]` is then read with a
plain indexing (a `KeyError` when the entry was deleted by an earlier
iteration).  After the filter loop, the entry is deleted when its list
became empty. -/
def add_leftovers_step (keys : List String) (prefixes : Table) (key : String) :
    Except Err Table :=
  let leftoverKey := key.dropRight 1
  if leftoverKey.length = 0 then .ok prefixes
  else if leftoverKey ∈ keys then
    match lookupA prefixes leftoverKey with
    | none => .error (.keyError leftoverKey)
    | some leftovers =>
      match lr_loop key prefixes leftovers 0 (leftovers.length + 1) with
      | .error e => .error e
      | .ok (p1, src1) =>
        let p2 := setA p1 leftoverKey src1
        .ok (if src1.length = 0 then eraseA p2 leftoverKey else p2)
  else .ok prefixes

/-- The `for key in keys` loop of `__add_leftovers`. -/
def add_leftovers_go (keys : List String) (prefixes : Table) :
    List String → Except Err Table
  | [] => .ok prefixes
  | k :: ks =>
    match add_leftovers_step keys prefixes k with
    | .error e => .error e
    | .ok p1 => add_leftovers_go keys p1 ks

/-- Embeds `PrefixTree.__add_leftovers`: sort the key snapshot by length and run the
reconciliation loop over it. -/
def add_leftovers (prefixes : Table) : Except Err Table :=
  let keys := sort_by_len (keysA prefixes)
  add_leftovers_go keys prefixes keys

/-- Embeds `PrefixTree.get_factored_out` on the alternatives of a non-terminal:
construct the tree (`__init__` calls `create_tree`), run
`__create_constellations` over every root, copy the factoring table into
`prefixes` (same entries, same order), and run `__add_leftovers` on it. -/
def get_factored_out (alts : List Alt) : Except Err Table :=
  match create_tree alts with
  | .error e => .error e
  | .ok (roots, table, _) =>
    match const_roots table roots with
    | .error e => .error e
    | .ok t => add_leftovers t

mutual
/-- Embeds `PrefixTree.get_alternatives_at`: if the start node's `prefix` equals the
target, return its `alts` without descending; otherwise concatenate the
recursive results over the children, in order. -/
def get_alternatives_at : Node → String → List Alt
  | .mk lbl _ cs as, p => if lbl = p then as else ga_children cs p

/-- The `for child in start_node.children` loop of `get_alternatives_at`. -/
def ga_children : NodeList → String → List Alt
  | .nil, _ => []
  | .cons c cs, p => get_alternatives_at c p ++ ga_children cs p
end

/-- Embeds `PrefixTree.get_tree_head`: root lookup by first-symbol name. -/
def get_tree_head (roots : List (String × Node)) (p : String) : Option Node :=
  lookupA roots p

mutual
/-- Whether some node in the subtree (the node itself included) has the given
label.  Used to state when `get_alternatives_at` finds nothing. -/
def label_occurs : Node → String → Bool
  | .mk lbl _ cs _, p => (lbl = p) || label_occurs_list cs p

/-- `label_occurs` over a children list. -/
def label_occurs_list : NodeList → String → Bool
  | .nil, _ => false
  | .cons c cs, p => label_occurs c p || label_occurs_list cs p
end

mutual
/-- Modelled from the claim's words for comparison with the code: the
concatenation, in depth-first order, of the `alts` of every node in the
subtree whose label matches — including nodes below a matching node. -/
def collect_all : Node → String → List Alt
  | .mk lbl _ cs as, p => (if lbl = p then as else []) ++ collect_all_list cs p

/-- `collect_all` over a children list. -/
def collect_all_list : NodeList → String → List Alt
  | .nil, _ => []
  | .cons c cs, p => collect_all c p ++ collect_all_list cs p
end

/-- The group key under which construction actually files an alternative: the
full signature for a one-element alternative, otherwise the signature with
its last character removed (Python `full_alt_str[0:-1]` — one character, not
one element name). -/
def chain_key (a : Alt) : String :=
  if a.length = 1 then to_string a else (to_string a).dropRight 1

/-- What `create_tree` leaves behind of one (mutable, in Python) input
alternative: the list after `del alt[0]` and the `del elements[0]` steps of
the `create_chain` loop — everything up to the last element is consumed. -/
def residue_after (a : Alt) : List Element :=
  a.tail.drop (a.tail.length - 1)

/-- The factoring table right after construction from the single alternative
`[ab, cd]` (two elements whose names have two characters each). -/
def c4_table : Table :=
  match create_tree [["ab", "cd"]] with
  | .ok (_, t, _) => t
  | .error _ => []

/-- The residue states of the input alternatives after constructing from the
single two-element alternative `[x, y]`. -/
def c7_residues : List (List Element) :=
  match create_tree [["x", "y"]] with
  | .ok (_, _, res) => res
  | .error _ => []

/-- The root node labelled `x` of the tree built from the alternatives
`[x, a, q]` and `[x, a, a, w]`: its child labelled `a` holds the first
alternative and itself has a child labelled `a` holding the second. -/
def c10_root : Node :=
  match create_tree [["x", "a", "q"], ["x", "a", "a", "w"]] with
  | .ok (roots, _, _) =>
    match lookupA roots "x" with
    | some n => n
    | none => Node.mk "" 0 .nil []
  | .error _ => Node.mk "" 0 .nil []

/-- A small concrete node used to witness the `get_alternatives_at`
characterisation: label `a` holding the alternative `[a]`, with one child
labelled `b` holding the alternative `[a, b]`. -/
def c10w : Node :=
  Node.mk "a" 0 (.cons (Node.mk "b" 1 .nil [["a", "b"]]) .nil) [["a"]]

/-- In `create_chain`, the factoring table is only touched once the descent
stops: the result table is always `table_append` of the input table at
`chain_key full_alt`, whatever node the chain started from. -/
theorem create_chain_table (elements : List Element) :
    ∀ node full_alt table,
      (create_chain node elements full_alt table).2.1 =
        table_append table (chain_key full_alt) full_alt := by
  induction elements with
  | nil =>
    intro node full_alt table
    cases node
    simp [create_chain, chain_key]
  | cons e1 tl ih =>
    intro node full_alt table
    cases tl with
    | nil =>
      cases node
      simp [create_chain, chain_key]
    | cons e2 rest =>
      cases node with
      | mk lbl d cs as =>
        simp only [create_chain]
        cases h : find_child cs e1 with
        | none => simpa using ih _ full_alt table
        | some x =>
          obtain ⟨b, m, a⟩ := x
          simpa using ih _ full_alt table

/-- The descent loop of `create_chain` consumes the elements list down to its
final element (or leaves it untouched when it already has at most one). -/
theorem create_chain_res (elements : List Element) :
    ∀ node full_alt table,
      (create_chain node elements full_alt table).2.2 =
        elements.drop (elements.length - 1) := by
  induction elements with
  | nil =>
    intro node full_alt table
    cases node
    simp [create_chain]
  | cons e1 tl ih =>
    intro node full_alt table
    cases tl with
    | nil =>
      cases node
      simp [create_chain]
    | cons e2 rest =>
      cases node with
      | mk lbl d cs as =>
        simp only [create_chain]
        cases h : find_child cs e1 with
        | none =>
          simpa using ih _ full_alt table
        | some x =>
          obtain ⟨b, m, a⟩ := x
          simpa using ih _ full_alt table

/-- Joint characterisation of `create_tree_aux` on a list of non-empty
alternatives: it succeeds, the final table is the fold of `table_append` at
each alternative's `chain_key`, and each input alternative is left holding
only the residue `create_chain` leaves behind. -/
theorem create_tree_aux_spec (alts : List Alt) :
    ∀ roots table residues, (∀ a ∈ alts, a ≠ []) →
      ∃ roots1, create_tree_aux roots table residues alts =
        .ok (roots1,
             alts.foldl (fun t a => table_append t (chain_key a) a) table,
             residues ++ alts.map residue_after) := by
  induction alts with
  | nil =>
    intro roots table residues _
    exact ⟨roots, by simp [create_tree_aux]⟩
  | cons alt more ih =>
    intro roots table residues h
    obtain ⟨e, restEls, rfl⟩ :=
      List.exists_cons_of_ne_nil (h alt (List.mem_cons_self alt more))
    have h' : ∀ a ∈ more, a ≠ [] := fun a ha => h a (List.mem_cons_of_mem _ ha)
    simp only [create_tree_aux]
    obtain ⟨roots1, heq⟩ := ih _ _ _ h'
    refine ⟨roots1, ?_⟩
    rw [heq, create_chain_table, create_chain_res]
    simp [residue_after]

/-- Once `create_tree_aux` reaches an empty alternative, `alt[0]` fails:
the whole construction returns the indexing error, whatever non-empty
alternatives preceded it. -/
theorem create_tree_aux_empty_alt (pre : List Alt) :
    ∀ (post : List Alt) roots table residues, (∀ a ∈ pre, a ≠ []) →
      create_tree_aux roots table residues (pre ++ [] :: post) =
        .error .indexError := by
  induction pre with
  | nil =>
    intro post roots table residues _
    simp [create_tree_aux]
  | cons alt more ih =>
    intro post roots table residues h
    obtain ⟨e, restEls, rfl⟩ :=
      List.exists_cons_of_ne_nil (h alt (List.mem_cons_self alt more))
    have h' : ∀ a ∈ more, a ≠ [] := fun a ha => h a (List.mem_cons_of_mem _ ha)
    simp only [List.cons_append, create_tree_aux]
    exact ih post _ _ _ h'

mutual
/-- When no node of the subtree carries the target label, the search of
`get_alternatives_at` comes back empty. -/
theorem ga_empty_node (n : Node) (p : String)
    (h : label_occurs n p = false) : get_alternatives_at n p = [] := by
  match n with
  | .mk lbl d cs as =>
    simp only [label_occurs, Bool.or_eq_false_iff, decide_eq_false_iff_not] at h
    simp only [get_alternatives_at, if_neg h.1]
    exact ga_empty_list cs p h.2

/-- When no node of a list of subtrees carries the target label, the
concatenated search comes back empty. -/
theorem ga_empty_list (cs : NodeList) (p : String)
    (h : label_occurs_list cs p = false) : ga_children cs p = [] := by
  match cs with
  | .nil => simp [ga_children]
  | .cons c rest =>
    simp only [label_occurs_list, Bool.or_eq_false_iff] at h
    simp only [ga_children, ga_empty_node c p h.1, ga_empty_list rest p h.2,
      List.nil_append]
end

/-- Claim C1 (code bug): on the well-formed input holding the single
alternative `[a, b, c]` (three named elements), `get_factored_out` does not
complete: the chain-contraction pass promotes the lone alternative out of the
node at path `a-b` and reads `self.__factored_table["a"]`, a key the table
never contained — the Python code raises `KeyError` there instead of creating
the entry. -/
theorem c1_keyerror :
    get_factored_out [["a", "b", "c"]] = .error (Err.keyError "a") := rfl

/-- Claim C2 (code bug): on the three distinct-signature alternatives
`[a, b, cd]`, `[abc, e]`, `[ab, x]`, `get_factored_out` returns a plan
containing only two alternatives: promoting `[a, b, cd]` deletes the whole
table entry under key `abc`, which also held `[abc, e]`, so that alternative
is lost — the union of the returned lists has 2 members, not 3, violating
coverage. -/
theorem c2_coverage_loss :
    get_factored_out [["a", "b", "cd"], ["abc", "e"], ["ab", "x"]] =
      .ok [("ab", [["ab", "x"], ["a", "b", "cd"]])] ∧
    (["abc", "e"] : Alt) ∉ [["ab", "x"], ["a", "b", "cd"]] ∧
    ([["ab", "x"], ["a", "b", "cd"]] : List Alt).length = 2 ∧
    ([["a", "b", "cd"], ["abc", "e"], ["ab", "x"]] : List Alt).length = 3 :=
  ⟨rfl, by decide, rfl, rfl⟩

/-- Claim C3 (counterexample): for the alternatives `[x, y]` and `[z, a]`
(two elements each, disjoint first symbols), the plan's keys are `x` and `z`,
not the full signatures `xy` and `za` the claim asserts: a two-element
alternative is keyed by its signature minus the last element. -/
theorem c3_counterexample :
    get_factored_out [["x", "y"], ["z", "a"]] =
      .ok [("x", [["x", "y"]]), ("z", [["z", "a"]])] ∧
    keysA [("x", ([["x", "y"]] : List Alt)), ("z", [["z", "a"]])] ≠
      [to_string ["x", "y"], to_string ["z", "a"]] :=
  ⟨rfl, by decide⟩

/-- Claim C3 (amended): for the alternatives `[x, y]` and `[z, a]`, the plan
has exactly two entries, each holding exactly one alternative, keyed by the
alternative's signature with its last element removed — its first symbol
(`x` and `z`); the full-signature key arises only for single-element
alternatives. -/
theorem c3_first_symbol_keys :
    ∃ t, get_factored_out [["x", "y"], ["z", "a"]] = .ok t ∧
      keysA t = [to_string ["x"], to_string ["z"]] ∧
      t.map (fun kv => kv.2) = [[["x", "y"]], [["z", "a"]]] :=
  ⟨[("x", [["x", "y"]]), ("z", [["z", "a"]])], rfl, rfl, rfl⟩

/-- Claim C4 (counterexample): construction files the single alternative
`[ab, cd]` under the key `abc` — the signature `abcd` minus one character —
not under `ab`, the signature with the last element's name `cd` removed, so
the claimed key rule fails for element names longer than one character. -/
theorem c4_counterexample :
    c4_table = [("abc", [["ab", "cd"]])] ∧
    lookupA c4_table (to_string (["ab", "cd"] : Alt).dropLast) = none :=
  ⟨rfl, rfl⟩

/-- Claim C4 (amended): for every non-empty alternative processed at
construction time, the factoring-table group key it is filed under is its
full signature when it has exactly one element and otherwise its signature
with the last character removed (`chain_key`); this equals removing the last
element's name only when that name is a single character.  The construction
table is exactly the fold of these filings over the input order. -/
theorem c4_construction_key (alts : List Alt) (h : ∀ a ∈ alts, a ≠ []) :
    ∃ roots residues, create_tree alts =
      .ok (roots,
           alts.foldl (fun t a => table_append t (chain_key a) a) [],
           residues) := by
  obtain ⟨roots1, heq⟩ := create_tree_aux_spec alts [] [] [] h
  exact ⟨roots1, _, heq⟩

/-- Witness for `c4_construction_key` at the concrete input
`[[p, q], [r]]`. -/
theorem c4_construction_key_witness :
    (∀ a ∈ ([["p", "q"], ["r"]] : List Alt), a ≠ []) ∧
    ∃ roots residues, create_tree [["p", "q"], ["r"]] =
      .ok (roots,
           ([["p", "q"], ["r"]] : List Alt).foldl
             (fun t a => table_append t (chain_key a) a) [],
           residues) :=
  ⟨by decide, c4_construction_key [["p", "q"], ["r"]] (by decide)⟩

/-- Claim C5 (code bug): during chain contraction on the input holding the
single alternative `[b, c, d]`, the parent key `b` is absent from the
factoring table (first conjunct), and instead of creating that entry the code
raises `KeyError` there (second conjunct), so the claimed
create-when-absent update never happens. -/
theorem c5_parent_key_missing :
    Except.map (fun r => lookupA r.2.1 "b") (create_tree [["b", "c", "d"]]) =
      .ok none ∧
    get_factored_out [["b", "c", "d"]] = .error (Err.keyError "b") :=
  ⟨rfl, rfl⟩

/-- Claim C6 (counterexample): constructing from a non-terminal holding one
zero-element alternative fails with the indexing error of `alt[0]`, which is
not the explicit `InvalidAlternative` error the claim asserts. -/
theorem c6_counterexample :
    create_tree [([] : Alt)] = .error Err.indexError ∧
    Err.indexError ≠ Err.invalidAlternative :=
  ⟨rfl, by decide⟩

/-- Claim C6 (amended): constructing a `PrefixTree` from a non-terminal
containing an alternative with zero elements — after any number of
well-formed alternatives — fails at construction time with an unguarded
indexing error (`IndexError` from `alt[0]`), not with an explicit
`InvalidAlternative` error. -/
theorem c6_index_error (pre post : List Alt) (h : ∀ a ∈ pre, a ≠ []) :
    create_tree (pre ++ [] :: post) = .error Err.indexError :=
  create_tree_aux_empty_alt pre post [] [] [] h

/-- Witness for `c6_index_error` with one well-formed alternative before the
empty one. -/
theorem c6_index_error_witness :
    (∀ a ∈ ([["a"]] : List Alt), a ≠ []) ∧
    create_tree ([["a"]] ++ [] :: []) = .error Err.indexError :=
  ⟨by decide, c6_index_error [["a"]] [] (by decide)⟩

/-- Claim C7 (counterexample): after constructing from the single two-element
alternative `[x, y]`, the input alternative list has been consumed down to
`[y]` — it no longer contains the same elements as before construction. -/
theorem c7_counterexample :
    c7_residues = [["y"]] ∧ c7_residues ≠ [["x", "y"]] :=
  ⟨rfl, by decide⟩

/-- Claim C7 (amended): `create_tree` mutates its input: `del alt[0]` and the
`del elements[0]` steps of `create_chain` consume each alternative in place,
so after construction every input alternative is left holding only its last
element (and a single-element alternative is left empty) — captured by the
residue states the embedding returns. -/
theorem c7_mutation (alts : List Alt) (h : ∀ a ∈ alts, a ≠ []) :
    ∃ roots table,
      create_tree alts = .ok (roots, table, alts.map residue_after) := by
  obtain ⟨roots1, heq⟩ := create_tree_aux_spec alts [] [] [] h
  exact ⟨roots1, _, by simpa using heq⟩

/-- Witness for `c7_mutation`: the alternative `[p, q, r]` is left as
`[r]`. -/
theorem c7_mutation_witness :
    (∀ a ∈ ([["p", "q", "r"]] : List Alt), a ≠ []) ∧
    ∃ roots table, create_tree [["p", "q", "r"]] =
      .ok (roots, table, ([["p", "q", "r"]] : List Alt).map residue_after) :=
  ⟨by decide, c7_mutation [["p", "q", "r"]] (by decide)⟩

/-- Claim C8 (confirmed): for the alternatives `ab`, `abc`, `abd`
(single-character element names), the plan is the single group keyed `ab`
holding all three alternatives; the exact-prefix alternative `ab` is moved
out of the shorter key `a` into the `ab` group and the emptied `a` entry is
deleted. -/
theorem c8_leftover_placement :
    get_factored_out [["a", "b"], ["a", "b", "c"], ["a", "b", "d"]] =
      .ok [("ab", [["a", "b", "c"], ["a", "b", "d"], ["a", "b"]])] := rfl

/-- Claim C9 (confirmed): for the alternatives `abc` and `abd`
(single-character element names), the plan's only group is keyed `ab` —
neither the shallower `a` nor the deeper `abc`/`abd` — and holds both
alternatives. -/
theorem c9_chain_contraction :
    get_factored_out [["a", "b", "c"], ["a", "b", "d"]] =
      .ok [("ab", [["a", "b", "c"], ["a", "b", "d"]])] := rfl

/-- Claim C10 (counterexample): on the tree built from `[x, a, q]` and
`[x, a, a, w]`, searching the root `x` for label `a` returns only the alts of
the shallowest matching node (`[[x, a, q]]`), while the claim's reading —
the alts of every matching node in the subtree, `collect_all` — would also
include `[x, a, a, w]` held by the deeper node labelled `a`. -/
theorem c10_counterexample :
    get_alternatives_at c10_root "a" = [["x", "a", "q"]] ∧
    collect_all c10_root "a" = [["x", "a", "q"], ["x", "a", "a", "w"]] ∧
    get_alternatives_at c10_root "a" ≠ collect_all c10_root "a" :=
  ⟨rfl, rfl, by decide⟩

/-- Claim C10 (amended): `get_alternatives_at(start_node, label)` returns the
start node's own `alts` without descending when its label matches; otherwise
it concatenates, in depth-first child order, the recursive results over the
children — so descent stops at the shallowest matching node of each branch
and nodes beneath a match are not searched — and it returns the empty list
when no node in the subtree has the target label. -/
theorem c10_search (n : Node) (p : String) :
    (n.label = p → get_alternatives_at n p = n.alts) ∧
    (n.label ≠ p → get_alternatives_at n p = ga_children n.children p) ∧
    (label_occurs n p = false → get_alternatives_at n p = []) := by
  obtain ⟨lbl, d, cs, as⟩ := n
  refine ⟨fun h => ?_, fun h => ?_, fun h => ga_empty_node _ _ h⟩
  · simp only [Node.label] at h
    simp [get_alternatives_at, Node.alts, h]
  · simp only [Node.label] at h
    simp [get_alternatives_at, Node.children, h]

/-- Witness for `c10_search` on the concrete node `c10w`, exercising all
three hypotheses: a matching start label, a non-matching start label, and a
label absent from the whole subtree. -/
theorem c10_search_witness :
    get_alternatives_at c10w "a" = [["a"]] ∧
    get_alternatives_at c10w "b" = ga_children (Node.children c10w) "b" ∧
    get_alternatives_at c10w "zz" = [] :=
  ⟨(c10_search c10w "a").1 rfl,
   (c10_search c10w "b").2.1 (by decide),
   (c10_search c10w "zz").2.2 (by decide)⟩

end Parso
